import Mathlib

/-!
Verification development for the Turtle Trading indicator/signal core.

The definitions below are a shallow embedding of the two core modules:

* `turtle_trading/core/data_manager.py`, method
  `DataManager.calculate_technical_indicators` (the Indicator Engine);
* `turtle_trading/core/signal_engine.py`, class `SignalEngine`
  (the Signal Engine).

Modelling conventions:

* pandas floating-point cells are modelled as `Option ℚ`: `none` stands
  for a missing value (`NaN`), `some q` for the numeric value `q`.
  Comparisons against `NaN` are `false` in Python, which the helper
  functions below (`nanGt`, `nanLt`) reproduce; arithmetic with `NaN`
  yields `NaN`, reproduced by combinators returning `none`.
* a pandas rolling window of length `w` with the default
  `min_periods = w` produces a value at row `i` exactly when the
  trailing window holds at least `w` non-`NaN` values, and aggregates
  the non-`NaN` values of the window; `rollingApply` reproduces this.
* `DataFrame.max(axis=1)` skips `NaN` entries of a row and is `NaN`
  only when every entry is (`listMax` over the defined entries).
* Python exceptions that the source can raise while generating signals
  (a `KeyError` from a missing column, an out-of-bounds `iloc[-1]`) are
  modelled with `Except String`; `SignalEngine.generate_signals`
  catches them per symbol, which the batch driver below reproduces.
-/

namespace Turtle

/-- One OHLCV record of the input price series (a row of the pandas
DataFrame handed to `calculate_technical_indicators`).  `open` is a Lean
keyword, hence the field name `open_`. -/
structure Bar where
  open_ : ℚ
  high : ℚ
  low : ℚ
  close : ℚ
  volume : ℚ
deriving DecidableEq, Repr

/-- Maximum of a list of rationals, `none` on the empty list.  Used to
model the `NaN`-skipping row-wise `max(axis=1)` and the rolling `max`. -/
def listMax : List ℚ → Option ℚ
  | [] => none
  | x :: xs =>
    match listMax xs with
    | none => some x
    | some m => some (max x m)

/-- Minimum of a list of rationals, `none` on the empty list. -/
def listMin : List ℚ → Option ℚ
  | [] => none
  | x :: xs =>
    match listMin xs with
    | none => some x
    | some m => some (min x m)

/-- Mean of a list of rationals (division by the length, `0` when empty;
only ever used on lists whose length is bounded below by the window). -/
def meanQ (vs : List ℚ) : ℚ := vs.sum / (vs.length : ℚ)

/-- Sample variance (`ddof = 1`, the pandas `rolling(...).std()`
default) of a list of rationals. -/
def sampleVar (vs : List ℚ) : ℚ :=
  ((vs.map (fun x => (x - meanQ vs) ^ 2)).sum) / ((vs.length : ℚ) - 1)

/-- Indices of the trailing window of length `w` ending at row `i`:
`[max 0 (i-w+1), …, i]`, exactly the rows a pandas rolling window of
size `w` aggregates at row `i`. -/
def windowIdx (w i : ℕ) : List ℕ :=
  List.range' (i + 1 - w) (i + 1 - (i + 1 - w))

/-- `series.rolling(window=w).agg()` at row `i` of a series of length
`n` whose cell at row `j` is `f j`: with the default
`min_periods = window`, the result is defined iff the trailing window
holds at least `w` non-`NaN` cells, and aggregates those cells. -/
def rollingApply (agg : List ℚ → Option ℚ) (f : ℕ → Option ℚ) (n w i : ℕ) :
    Option ℚ :=
  if i < n then
    let vs := (windowIdx w i).filterMap f
    if w ≤ vs.length then agg vs else none
  else none

/-- Rolling maximum (`rolling(window=w).max()`). -/
def rollingMax (f : ℕ → Option ℚ) (n w i : ℕ) : Option ℚ :=
  rollingApply listMax f n w i

/-- Rolling minimum (`rolling(window=w).min()`). -/
def rollingMin (f : ℕ → Option ℚ) (n w i : ℕ) : Option ℚ :=
  rollingApply listMin f n w i

/-- Rolling mean (`rolling(window=w).mean()`). -/
def rollingMean (f : ℕ → Option ℚ) (n w i : ℕ) : Option ℚ :=
  rollingApply (fun vs => some (meanQ vs)) f n w i

/-- Rolling sample variance: the square of `rolling(window=w).std()`. -/
def rollingVar (f : ℕ → Option ℚ) (n w i : ℕ) : Option ℚ :=
  rollingApply (fun vs => some (sampleVar vs)) f n w i

/-- Cell of the `high` column at row `j` (`NaN`-free: the row either
exists or the cell does not). -/
def highAt (s : List Bar) (j : ℕ) : Option ℚ := (s.get? j).map Bar.high

/-- Cell of the `low` column at row `j`. -/
def lowAt (s : List Bar) (j : ℕ) : Option ℚ := (s.get? j).map Bar.low

/-- Cell of the `close` column at row `j`. -/
def closeAt (s : List Bar) (j : ℕ) : Option ℚ := (s.get? j).map Bar.close

/-- `df['true_range']` at row `j`:
`prev_close = close.shift(1)` is `NaN` at row 0;
`tr1 = high - low`, `tr2 = |high - prev_close|`, `tr3 = |low - prev_close|`;
`true_range = df[['tr1','tr2','tr3']].max(axis=1)`, a row-wise max that
skips `NaN` entries (pandas default `skipna=True`). -/
def trueRange (s : List Bar) (j : ℕ) : Option ℚ :=
  match s.get? j with
  | none => none
  | some b =>
    let pc : Option ℚ := if j = 0 then none else (s.get? (j - 1)).map Bar.close
    listMax (([some (b.high - b.low),
               pc.map (fun p => |b.high - p|),
               pc.map (fun p => |b.low - p|)]).filterMap id)

/-- `df['donchian_high_w'] = df['high'].rolling(window=w).max()`. -/
def donchianHigh (s : List Bar) (w i : ℕ) : Option ℚ :=
  rollingMax (highAt s) s.length w i

/-- `df['donchian_low_w'] = df['low'].rolling(window=w).min()`. -/
def donchianLow (s : List Bar) (w i : ℕ) : Option ℚ :=
  rollingMin (lowAt s) s.length w i

/-- `df['atr_w'] = df['true_range'].rolling(window=w).mean()`. -/
def atr (s : List Bar) (w i : ℕ) : Option ℚ :=
  rollingMean (trueRange s) s.length w i

/-- `df['sma_w'] = df['close'].rolling(window=w).mean()`. -/
def sma (s : List Bar) (w i : ℕ) : Option ℚ :=
  rollingMean (closeAt s) s.length w i

/-- `df['returns'] = df['close'].pct_change()`: `NaN` at row 0, else
`close[j]/close[j-1] - 1`. -/
def pctChange (s : List Bar) (j : ℕ) : Option ℚ :=
  match s.get? j with
  | none => none
  | some b =>
    if j = 0 then none
    else (s.get? (j - 1)).map (fun p => b.close / p.close - 1)

/-- The square of
`df['volatility_w'] = df['returns'].rolling(window=w).std() * sqrt 252`.
The source stores the real number `std * sqrt 252`; both factors are
nonnegative, so the stored value is determined by (and determines) its
square `252 * variance`, which is rational and is what we track. -/
def volatilitySq (s : List Bar) (w i : ℕ) : Option ℚ :=
  (rollingVar (pctChange s) s.length w i).map (fun v => 252 * v)

/-- One row of the DataFrame returned by
`DataManager.calculate_technical_indicators`: the original bar plus the
computed indicator columns that survive the temporary-column cleanup
(windows are hard-coded in the source: Donchian 10/20/55, ATR 10/20/30,
SMA 10/20/50/200, volatility 10/20/30). -/
structure IndicatorRow where
  bar : Bar
  donchian_high_10 : Option ℚ
  donchian_high_20 : Option ℚ
  donchian_high_55 : Option ℚ
  donchian_low_10 : Option ℚ
  donchian_low_20 : Option ℚ
  donchian_low_55 : Option ℚ
  true_range : Option ℚ
  atr_10 : Option ℚ
  atr_20 : Option ℚ
  atr_30 : Option ℚ
  sma_10 : Option ℚ
  sma_20 : Option ℚ
  sma_50 : Option ℚ
  sma_200 : Option ℚ
  returns : Option ℚ
  volatility_sq_10 : Option ℚ
  volatility_sq_20 : Option ℚ
  volatility_sq_30 : Option ℚ
deriving DecidableEq, Repr

/-- Row `i` of the indicator DataFrame (defined when the row exists). -/
def indicatorRowAt (s : List Bar) (i : ℕ) : Option IndicatorRow :=
  (s.get? i).map (fun b =>
    { bar := b
      donchian_high_10 := donchianHigh s 10 i
      donchian_high_20 := donchianHigh s 20 i
      donchian_high_55 := donchianHigh s 55 i
      donchian_low_10 := donchianLow s 10 i
      donchian_low_20 := donchianLow s 20 i
      donchian_low_55 := donchianLow s 55 i
      true_range := trueRange s i
      atr_10 := atr s 10 i
      atr_20 := atr s 20 i
      atr_30 := atr s 30 i
      sma_10 := sma s 10 i
      sma_20 := sma s 20 i
      sma_50 := sma s 50 i
      sma_200 := sma s 200 i
      returns := pctChange s i
      volatility_sq_10 := volatilitySq s 10 i
      volatility_sq_20 := volatilitySq s 20 i
      volatility_sq_30 := volatilitySq s 30 i })

/-- `DataManager.calculate_technical_indicators`: the full indicator
DataFrame, one row per input bar, no validation of any kind performed
on the input. -/
def calculate_technical_indicators (s : List Bar) : List IndicatorRow :=
  (List.range s.length).filterMap (fun i => indicatorRowAt s i)

/-! ### Basic facts about the rolling-window embedding -/

theorem filterMap_length_of_isSome {α β : Type} (f : α → Option β)
    (l : List α) (h : ∀ a ∈ l, (f a).isSome) :
    (l.filterMap f).length = l.length := by
  induction l with
  | nil => simp
  | cons a t ih =>
    have ha : (f a).isSome := h a (List.mem_cons_self a t)
    obtain ⟨b, hb⟩ := Option.isSome_iff_exists.mp ha
    simp only [List.filterMap_cons, hb, List.length_cons]
    rw [ih (fun x hx => h x (List.mem_cons_of_mem a hx))]

theorem length_windowIdx (w i : ℕ) : (windowIdx w i).length = min w (i + 1) := by
  simp only [windowIdx, List.length_range']
  omega

theorem mem_windowIdx_le {w i j : ℕ} (h : j ∈ windowIdx w i) : j ≤ i := by
  simp only [windowIdx] at h
  have := List.mem_range'_1.mp h
  omega

theorem listMax_isSome {l : List ℚ} (h : l ≠ []) : (listMax l).isSome := by
  cases l with
  | nil => exact absurd rfl h
  | cons x xs =>
    simp only [listMax]
    cases listMax xs <;> simp

theorem listMin_isSome {l : List ℚ} (h : l ≠ []) : (listMin l).isSome := by
  cases l with
  | nil => exact absurd rfl h
  | cons x xs =>
    simp only [listMin]
    cases listMin xs <;> simp

/-- `true_range` is defined at every existing row: its `tr1` entry
`high - low` is never `NaN`, and the row-wise max skips the others. -/
theorem trueRange_isSome {s : List Bar} {j : ℕ} (h : j < s.length) :
    (trueRange s j).isSome := by
  obtain ⟨b, hb⟩ : ∃ b, s.get? j = some b := by
    rw [List.get?_eq_getElem?]
    exact List.getElem?_eq_some.mpr ⟨h, rfl⟩ |> fun hx => ⟨_, hx⟩
  simp only [trueRange, hb]
  rcases hpc : (if j = 0 then none else (s.get? (j - 1)).map Bar.close) with _ | p
  · simp [listMax]
  · simp [listMax]

/-- A rolling aggregate over an everywhere-defined column is `NaN`
exactly on the first `w - 1` rows, provided the aggregate of a
nonempty list is defined. -/
theorem rollingApply_eq_none_iff (agg : List ℚ → Option ℚ)
    (hagg : ∀ vs : List ℚ, vs ≠ [] → (agg vs).isSome)
    (f : ℕ → Option ℚ) {n w i : ℕ}
    (hf : ∀ j, j ≤ i → (f j).isSome)
    (hw : 1 ≤ w) (hi : i < n) :
    (rollingApply agg f n w i = none ↔ i + 1 < w) := by
  have hlen : ((windowIdx w i).filterMap f).length = min w (i + 1) := by
    rw [filterMap_length_of_isSome f _ (fun j hj => hf j (mem_windowIdx_le hj))]
    exact length_windowIdx w i
  simp only [rollingApply, if_pos hi]
  by_cases hcase : w ≤ i + 1
  · have hcond : w ≤ ((windowIdx w i).filterMap f).length := by omega
    rw [if_pos hcond]
    have hne : (windowIdx w i).filterMap f ≠ [] := by
      intro hnil
      rw [hnil] at hlen
      simp at hlen
      omega
    have := hagg _ hne
    constructor
    · intro hnone
      rw [hnone] at this
      simp at this
    · omega
  · have hcond : ¬ w ≤ ((windowIdx w i).filterMap f).length := by omega
    rw [if_neg hcond]
    constructor
    · intro _
      omega
    · intro _
      rfl

theorem range_filterMap_get {α β : Type} (f : α → β) :
    ∀ (s : List α) (w : ℕ),
      (List.range w).filterMap (fun j => (s.get? j).map f) = (s.take w).map f := by
  intro s
  induction s with
  | nil =>
    intro w
    have : ∀ j : ℕ, (([] : List α).get? j).map f = none := by
      intro j
      simp
    simp [List.filterMap_eq_nil_iff, this]
  | cons b t ih =>
    intro w
    cases w with
    | zero => simp
    | succ w =>
      rw [List.range_succ_eq_map w]
      simp only [List.filterMap_cons, List.get?_cons_zero, Option.map_some',
        List.filterMap_map]
      have hcomp :
          ((fun j => ((b :: t).get? j).map f) ∘ Nat.succ)
            = fun j => (t.get? j).map f := by
        funext j
        simp
      rw [hcomp, ih w]
      simp

/-- The trailing window ending at row `w - 1` (for `w ≥ 1`) is exactly
the first `w` rows. -/
theorem windowIdx_at_first (w : ℕ) (hw : 1 ≤ w) :
    windowIdx w (w - 1) = List.range w := by
  have h1 : w - 1 + 1 = w := by omega
  simp only [windowIdx, h1, Nat.sub_self, Nat.sub_zero]
  exact (List.range_eq_range' w).symm

/-! ### Claim C1 — definedness of `true_range`

The spec asserts `true_range` is undefined at bar 0.  In the source,
`df[['tr1','tr2','tr3']].max(axis=1)` skips `NaN` entries, and
`tr1 = high - low` is defined at bar 0, so `true_range` at bar 0 is the
defined value `high - low`: the claim fails on the code. -/

/-- A one-bar price series used to refute claim C1. -/
def c1bar : Bar := { open_ := 10, high := 12, low := 9, close := 11, volume := 100 }

/-- Claim C1 counterexample: on the non-empty series `[c1bar]`, the
computed `true_range` at bar 0 is the defined value `high - low = 3`,
not undefined as the claim states. -/
theorem true_range_bar0_defined_cex : trueRange [c1bar] 0 = some 3 := by
  simp [trueRange, c1bar, listMax]
  norm_num

/-- Claim C1 (amended): `true_range` is defined at every bar `i` of the
series, bar 0 included (the row-wise max skips the undefined
`prev_close`-derived entries and yields `high - low` there). -/
theorem true_range_total (s : List Bar) (i : ℕ) (h : i < s.length) :
    (trueRange s i).isSome = true :=
  trueRange_isSome h

/-- Witness for `true_range_total` at the concrete series `[c1bar]`. -/
theorem true_range_total_witness :
    0 < [c1bar].length ∧ (trueRange [c1bar] 0).isSome = true :=
  ⟨by decide, true_range_total [c1bar] 0 (by decide)⟩

/-! ### Claim C2 — where `atr[w]` is undefined

The spec asserts `atr[w]` is undefined on bars `0 .. w-1` because the
undefinedness of `true_range` at bar 0 propagates.  In the source
`true_range` is already defined at bar 0, so a full window of `w`
defined values exists at bar `w - 1` and `atr[w]` is defined there:
the claim fails on the code. -/

/-- A ten-bar constant price series used to refute claim C2. -/
def c2series : List Bar :=
  List.replicate 10 { open_ := 1, high := 2, low := 1, close := 1, volume := 5 }

/-- Claim C2 counterexample: with window `w = 10` on a 10-bar series,
`atr[10]` at bar `9 = w - 1` is defined, although the claim states it
is undefined at every bar of index `0 .. w-1`. -/
theorem atr_defined_at_w_minus_one_cex : atr c2series 10 9 ≠ none := by
  have h := rollingApply_eq_none_iff (fun vs => some (meanQ vs))
    (fun vs _ => by simp) (trueRange c2series)
    (fun j hj => trueRange_isSome (by simp [c2series]; omega))
    (by omega : 1 ≤ 10) (by simp [c2series] : 9 < c2series.length)
  unfold atr rollingMean
  intro hnone
  have := h.mp hnone
  omega

/-- Claim C2 (amended): for every window `w ≥ 1` and every existing bar
`i`, `atr[w]` is undefined exactly on bars `0 .. w-2` and defined from
bar `w-1` onward — `true_range` is defined from bar 0 (including bar 0),
so the first full window of `w` defined values is available already at
index `w - 1`, not `w`. -/
theorem atr_none_iff (s : List Bar) (w i : ℕ) (hw : 1 ≤ w)
    (hi : i < s.length) :
    (atr s w i = none ↔ i + 1 < w) := by
  unfold atr rollingMean
  exact rollingApply_eq_none_iff (fun vs => some (meanQ vs)) (fun vs _ => by simp)
    (trueRange s) (fun j hj => trueRange_isSome (lt_of_le_of_lt hj hi)) hw hi

/-- Witness for `atr_none_iff`: on the concrete 10-bar series, bar 9
with window 10 (defined: `¬ 10 < 10`), discharging both hypotheses. -/
theorem atr_none_iff_witness :
    1 ≤ 10 ∧ 9 < c2series.length ∧ (atr c2series 10 9 = none ↔ 9 + 1 < 10) :=
  ⟨by decide, by decide, atr_none_iff c2series 10 9 (by decide) (by decide)⟩

/-! ### Claim C9 — Donchian window boundary -/

/-- Claim C9: for every window `w ≥ 1`, `donchian_high[w]` is undefined
at bars `0 .. w-2`, defined from bar `w-1` onward, and its value at bar
`w-1` is the maximum of the `high` values of bars `0 .. w-1`. -/
theorem donchian_window_boundary (s : List Bar) (w i : ℕ) (hw : 1 ≤ w)
    (hi : i < s.length) :
    (donchianHigh s w i = none ↔ i + 1 < w)
      ∧ (w ≤ s.length →
          donchianHigh s w (w - 1) = listMax ((s.take w).map Bar.high)) := by
  constructor
  · unfold donchianHigh rollingMax
    exact rollingApply_eq_none_iff listMax (fun vs hvs => listMax_isSome hvs)
      (highAt s)
      (fun j hj => by
        have : j < s.length := lt_of_le_of_lt hj hi
        simp only [highAt, List.get?_eq_getElem?]
        rw [List.getElem?_eq_getElem this]
        simp) hw hi
  · intro hws
    have hwin : windowIdx w (w - 1) = List.range w := windowIdx_at_first w hw
    have hvals : (windowIdx w (w - 1)).filterMap (highAt s)
        = (s.take w).map Bar.high := by
      rw [hwin]
      exact range_filterMap_get Bar.high s w
    have hlen : ((s.take w).map Bar.high).length = w := by
      simp only [List.length_map, List.length_take]
      omega
    have hiw : w - 1 < s.length := by omega
    simp only [donchianHigh, rollingMax, rollingApply, if_pos hiw, hvals]
    rw [if_pos (le_of_eq hlen.symm)]

/-- Witness for `donchian_window_boundary` at the concrete series
`c2series`, window 2, bar 0 (undefined there; value at bar 1 is the max
of the first two highs). -/
theorem donchian_window_boundary_witness :
    1 ≤ 2 ∧ 0 < c2series.length ∧
      ((donchianHigh c2series 2 0 = none ↔ 0 + 1 < 2)
        ∧ (2 ≤ c2series.length →
            donchianHigh c2series 2 1 = listMax ((c2series.take 2).map Bar.high))) :=
  ⟨by decide, by decide, donchian_window_boundary c2series 2 0 (by decide) (by decide)⟩

/-! ### Claim C4 — absence of input validation

The spec asserts the indicator computation fails with `InvalidInput` on
an empty series or an OHLC-ordering violation and with `InvalidWindow`
on a non-positive window.  The source performs no validation at all:
every window length is a hard-coded positive constant, and the method
returns a normal DataFrame for every input, the empty one and
OHLC-violating ones included. -/

/-- A bar violating OHLC ordering: `high < low`. -/
def c4bar : Bar := { open_ := 1, high := 1, low := 2, close := 1, volume := 0 }

/-- The indicator row the source computes for the single OHLC-violating
bar: every rolling column is undefined (windows ≥ 10 on a 1-bar series)
and `true_range = high - low = 1 - 2 = -1`; a perfectly normal result. -/
def c4row : IndicatorRow :=
  { bar := c4bar
    donchian_high_10 := none, donchian_high_20 := none, donchian_high_55 := none
    donchian_low_10 := none, donchian_low_20 := none, donchian_low_55 := none
    true_range := some (1 - 2)
    atr_10 := none, atr_20 := none, atr_30 := none
    sma_10 := none, sma_20 := none, sma_50 := none, sma_200 := none
    returns := none
    volatility_sq_10 := none, volatility_sq_20 := none, volatility_sq_30 := none }

/-- Claim C4 counterexample: `calculate_technical_indicators` returns a
normal result both on the empty series and on a series violating OHLC
ordering — it raises no `InvalidInput`, and no window parameter exists
that could trigger an `InvalidWindow`. -/
theorem indicators_no_validation_cex :
    calculate_technical_indicators [] = []
      ∧ calculate_technical_indicators [c4bar] = [c4row] := by
  exact ⟨rfl, rfl⟩

/-- Claim C4 (amended): `calculate_technical_indicators` performs no
input validation and cannot fail: for every input series — empty,
OHLC-violating or otherwise — it returns a normal indicator series with
exactly one row per input bar (window lengths are hard-coded positive
constants, so no `InvalidWindow` case exists). -/
theorem indicators_total (s : List Bar) :
    (calculate_technical_indicators s).length = s.length := by
  unfold calculate_technical_indicators
  rw [filterMap_length_of_isSome _ _ (fun i hi => by
    have hlt : i < s.length := List.mem_range.mp hi
    simp only [indicatorRowAt]
    rw [List.get?_eq_getElem?, List.getElem?_eq_getElem hlt]
    simp)]
  exact List.length_range s.length

/-! ### The Signal Engine (`turtle_trading/core/signal_engine.py`)

The engine reads a pandas DataFrame through string-keyed column access,
so a row is modelled as an association list from column name to cell
(`Option ℚ`, `none` = `NaN`), and a DataFrame as its column-name list
plus its rows.  `latest_row[key]` raises `KeyError` when the column is
absent (`rowGetE`, an `Except`), while `latest_row.get(key, 0)` falls
back to the defined value `0` (`rowGetD`). -/

/-- A DataFrame row: column name to cell, `none` modelling `NaN`. -/
abbrev Row := List (String × Option ℚ)

/-- A DataFrame: its columns and its rows (newest last). -/
structure Df where
  cols : List String
  rows : List Row
deriving DecidableEq, Repr

/-- `latest_row[k]` — raises `KeyError` when the column is absent. -/
def rowGetE (r : Row) (k : String) : Except String (Option ℚ) :=
  match List.lookup k r with
  | some v => Except.ok v
  | none => Except.error k

/-- `latest_row.get(k, 0)` — the defined value `0` when the column is
absent, the stored cell (possibly `NaN`) otherwise. -/
def rowGetD (r : Row) (k : String) : Option ℚ :=
  match List.lookup k r with
  | some v => v
  | none => some 0

/-- Python `a > b` on floats: `False` whenever either side is `NaN`. -/
def nanGt (a b : Option ℚ) : Bool :=
  match a, b with
  | some x, some y => decide (y < x)
  | _, _ => false

/-- Python `a < b` on floats: `False` whenever either side is `NaN`. -/
def nanLt (a b : Option ℚ) : Bool :=
  match a, b with
  | some x, some y => decide (x < y)
  | _, _ => false

/-- `pd.isna`. -/
def isna (a : Option ℚ) : Bool := a.isNone

/-- `c - m * a` with `NaN` propagation in `c` and `a`. -/
def nanSubMul (c : Option ℚ) (m : ℚ) (a : Option ℚ) : Option ℚ :=
  match c, a with
  | some x, some y => some (x - m * y)
  | _, _ => none

/-- The `SignalType` enum of the source. -/
inductive SignalType where
  | BUY | SELL | HOLD | PYRAMID | EXIT
deriving DecidableEq, Repr

/-- The `Signal` NamedTuple of the source.  `price` and `stop_price`
are cells that may be `NaN`; `stop_price`/`target_price` also default
to Python `None`, which we conflate with `NaN` (`none`) since the
source never distinguishes the two.  The timestamp is modelled by the
positional index of the latest row. -/
structure Signal where
  symbol : String
  signal_type : SignalType
  timestamp : ℕ
  price : Option ℚ
  system : ℕ
  confidence : ℚ := 1
  stop_price : Option ℚ := none
  target_price : Option ℚ := none
  units : ℕ := 1
deriving DecidableEq, Repr

/-- The trading parameters of `TradingConfig` that the Signal Engine
reads (defaults as in `config.py`). -/
structure TradingConfig where
  system1_length : ℕ := 20
  system2_length : ℕ := 55
  use_system2 : Bool := true
  max_units_per_position : ℕ := 5
  pyramid_increment : ℚ := 1/2
  atr_period : ℕ := 20
  stop_atr_multiple : ℚ := 2
  exit_length_s1 : ℕ := 10
  exit_length_s2 : ℕ := 20
deriving DecidableEq, Repr

/-- Common body of `SignalEngine._check_system1_signals` and
`_check_system2_signals` — the two sources are textually parallel, with
`sys` the emitted `system` tag, `length` the entry-channel window and
`exit_length` the exit-channel window.  Faithfully to the source, the
`donchian_low_{length}` cell is read (and can raise `KeyError`) even
though entries never use it, and the ATR cell is read with
`.get(..., 0)`, silently defaulting to `0` when the column is absent. -/
def check_system_signals (cfg : TradingConfig) (symbol : String) (df : Df)
    (latest : Row) (date : ℕ) (sys length exit_length : ℕ) :
    Except String (List Signal) :=
  if ("donchian_high_" ++ toString length) ∈ df.cols then
    match rowGetE latest "close" with
    | Except.error e => Except.error e
    | Except.ok current_price =>
    match rowGetE latest ("donchian_high_" ++ toString length) with
    | Except.error e => Except.error e
    | Except.ok donchian_high =>
    match rowGetE latest ("donchian_low_" ++ toString length) with
    | Except.error e => Except.error e
    | Except.ok _donchian_low =>
    let atrv := rowGetD latest ("atr_" ++ toString cfg.atr_period)
    let entry : List Signal :=
      if nanGt current_price donchian_high && !(isna donchian_high) then
        [{ symbol := symbol, signal_type := SignalType.BUY, timestamp := date,
           price := current_price, system := sys, confidence := 1,
           stop_price := nanSubMul current_price cfg.stop_atr_multiple atrv,
           target_price := none, units := 1 }]
      else []
    if ("donchian_low_" ++ toString exit_length) ∈ df.cols then
      match rowGetE latest ("donchian_low_" ++ toString exit_length) with
      | Except.error e => Except.error e
      | Except.ok exit_low =>
        if nanLt current_price exit_low && !(isna exit_low) then
          Except.ok (entry ++
            [{ symbol := symbol, signal_type := SignalType.EXIT, timestamp := date,
               price := current_price, system := sys, confidence := 1,
               stop_price := none, target_price := none, units := 1 }])
        else Except.ok entry
    else Except.ok entry
  else Except.ok []

/-- `SignalEngine._check_system1_signals`. -/
def check_system1_signals (cfg : TradingConfig) (symbol : String) (df : Df)
    (latest : Row) (date : ℕ) : Except String (List Signal) :=
  check_system_signals cfg symbol df latest date 1 cfg.system1_length cfg.exit_length_s1

/-- `SignalEngine._check_system2_signals`. -/
def check_system2_signals (cfg : TradingConfig) (symbol : String) (df : Df)
    (latest : Row) (date : ℕ) : Except String (List Signal) :=
  check_system_signals cfg symbol df latest date 2 cfg.system2_length cfg.exit_length_s2

/-- `SignalEngine._generate_symbol_signals`: empty list when history is
shorter than the longer system window, otherwise System 1 signals
followed by System 2 signals (System 2 gated by `use_system2`).
`df.iloc[-1]` raises on an empty frame. -/
def generate_symbol_signals (cfg : TradingConfig) (symbol : String) (df : Df) :
    Except String (List Signal) :=
  if df.rows.length < max cfg.system1_length cfg.system2_length then Except.ok []
  else
    match df.rows.getLast? with
    | none => Except.error "iloc"
    | some latest =>
      let date := df.rows.length - 1
      match check_system1_signals cfg symbol df latest date with
      | Except.error e => Except.error e
      | Except.ok s1 =>
        if cfg.use_system2 then
          match check_system2_signals cfg symbol df latest date with
          | Except.error e => Except.error e
          | Except.ok s2 => Except.ok (s1 ++ s2)
        else Except.ok s1

/-- `SignalEngine.last_signals`: the insertion-ordered mapping from
symbol to its most recent non-empty signal list. -/
abbrev EngineState := List (String × List Signal)

/-- Python `dict.__setitem__`: overwrite in place when the key exists,
append otherwise. -/
def setKey {α : Type} (m : List (String × α)) (k : String) (v : α) :
    List (String × α) :=
  if m.any (fun p => p.1 == k) then
    m.map (fun p => if p.1 == k then (k, v) else p)
  else m ++ [(k, v)]

/-- The loop body of `SignalEngine.generate_signals`: walk the batch in
order; a per-symbol exception skips the symbol; an empty signal list
writes nothing; a non-empty list is written into both the returned
`all_signals` dict and `self.last_signals`. -/
def generate_signals_aux (cfg : TradingConfig) :
    EngineState → List (String × List Signal) → List (String × Df) →
      EngineState × List (String × List Signal)
  | st, all, [] => (st, all)
  | st, all, (symbol, df) :: rest =>
    match generate_symbol_signals cfg symbol df with
    | Except.error _ => generate_signals_aux cfg st all rest
    | Except.ok signals =>
      if signals = [] then generate_signals_aux cfg st all rest
      else generate_signals_aux cfg (setKey st symbol signals)
        (setKey all symbol signals) rest

/-- `SignalEngine.generate_signals`: returns the updated
`last_signals` state together with the per-call `all_signals` dict. -/
def generate_signals (cfg : TradingConfig) (st : EngineState)
    (data : List (String × Df)) : EngineState × List (String × List Signal) :=
  generate_signals_aux cfg st [] data

/-- `SignalEngine.get_stop_loss_price`: reads the latest row
(`iloc[-1]` raises on an empty frame), takes the ATR cell with default
`0`, and returns `entry_price - stop_atr_multiple * atr` — `NaN` when
the stored ATR is `NaN`, and `entry_price` itself when the ATR column
is absent.  No `MissingIndicator` failure exists in the source. -/
def get_stop_loss_price (cfg : TradingConfig) (df : Df) (entry_price : ℚ) :
    Except String (Option ℚ) :=
  match df.rows.getLast? with
  | none => Except.error "iloc"
  | some latest =>
    let atrv := rowGetD latest ("atr_" ++ toString cfg.atr_period)
    Except.ok (atrv.map (fun a => entry_price - cfg.stop_atr_multiple * a))

/-- `total_symbols` of `SignalEngine.get_signal_summary`:
`len(self.last_signals)`. -/
def total_symbols (st : EngineState) : ℕ := st.length

/-- Folding a sequence of `generate_signals` calls from the freshly
constructed engine (`self.last_signals = {}`). -/
def run_batches (cfg : TradingConfig) (batches : List (List (String × Df))) :
    EngineState :=
  batches.foldl (fun st b => (generate_signals cfg st b).1) []

/-! ### Claim C3 — `get_stop_loss_price` and `MissingIndicator`

The spec asserts the operation fails with `MissingIndicator` whenever
the ATR at `atr_period` is undefined or was never computed for the
latest bar.  The source reads the ATR cell with
`latest_row.get(f'atr_{period}', 0)`: an absent column silently
defaults to `0` (so the returned stop equals the entry price), and a
stored `NaN` propagates into a `NaN` result; no failure is ever
raised. -/

/-- A DataFrame whose single row has no ATR column at all. -/
def c3df : Df := { cols := ["close"], rows := [[("close", some 100)]] }

/-- Claim C3 counterexample: with the ATR column never computed, the
source returns the normal value `entry_price = 100` (the ATR silently
defaulted to `0`) instead of failing with `MissingIndicator`. -/
theorem stop_loss_missing_atr_cex :
    get_stop_loss_price {} c3df 100 = Except.ok (some 100) := by
  have hlk : List.lookup ("atr_" ++ toString (20:ℕ)) [("close", (some 100 : Option ℚ))]
      = none := by decide
  simp [get_stop_loss_price, c3df, rowGetD, hlk]

/-- Claim C3 (amended): `get_stop_loss_price` is pure and returns
`entry_price - stop_atr_multiple * atr` when the ATR cell of the
latest row is defined; but when the ATR column is absent it silently
defaults the ATR to `0` and returns `entry_price`, and when the stored
ATR is `NaN` it returns `NaN` — it never fails with
`MissingIndicator` (no such error exists in the source). -/
theorem get_stop_loss_price_cases (cfg : TradingConfig) (df : Df) (r : Row)
    (entry_price a : ℚ) (hlast : df.rows.getLast? = some r) :
    (List.lookup ("atr_" ++ toString cfg.atr_period) r = some (some a) →
        get_stop_loss_price cfg df entry_price
          = Except.ok (some (entry_price - cfg.stop_atr_multiple * a)))
      ∧ (List.lookup ("atr_" ++ toString cfg.atr_period) r = none →
          get_stop_loss_price cfg df entry_price = Except.ok (some entry_price))
      ∧ (List.lookup ("atr_" ++ toString cfg.atr_period) r = some none →
          get_stop_loss_price cfg df entry_price = Except.ok none) := by
  refine ⟨fun hx => ?_, fun hx => ?_, fun hx => ?_⟩ <;>
    simp [get_stop_loss_price, hlast, rowGetD, hx]

/-- Witness for `get_stop_loss_price_cases`: a concrete frame whose
latest row stores `atr_20 = 3`, with entry price `100`. -/
theorem get_stop_loss_price_cases_witness :
    get_stop_loss_price {} { cols := ["atr_20"], rows := [[("atr_20", some 3)]] } 100
      = Except.ok (some (100 - (2:ℚ) * 3)) :=
  (get_stop_loss_price_cases {} { cols := ["atr_20"], rows := [[("atr_20", some 3)]] }
    [("atr_20", some 3)] 100 3 rfl).1 (by decide)

/-! ### Facts about `check_system_signals` -/

theorem rowGetE_ok {r : Row} {k : String} {v : Option ℚ}
    (h : rowGetE r k = Except.ok v) : List.lookup k r = some v := by
  unfold rowGetE at h
  split at h
  · injection h with h
    subst h
    assumption
  · exact Except.noConfusion h

theorem rowGetE_of_lookup {r : Row} {k : String} {v : Option ℚ}
    (h : List.lookup k r = some v) : rowGetE r k = Except.ok v := by
  unfold rowGetE
  rw [h]

/-- Exhaustive shape analysis of a successful system check: the result
splits into an entry part and an exit part; the entry part is empty or
the single `BUY` record built from the latest close, and the exit part
is empty or the single `EXIT` record. -/
theorem css_ok_cases (cfg : TradingConfig) (symbol : String) (df : Df)
    (latest : Row) (date sys length exit_length : ℕ) (sigs : List Signal)
    (hok : check_system_signals cfg symbol df latest date sys length exit_length
      = Except.ok sigs) :
    (("donchian_high_" ++ toString length) ∉ df.cols ∧ sigs = []) ∨
      ∃ current donchian_high : Option ℚ,
        List.lookup "close" latest = some current ∧
        List.lookup ("donchian_high_" ++ toString length) latest = some donchian_high ∧
      ∃ entry exits : List Signal,
        sigs = entry ++ exits ∧
        (entry = (if nanGt current donchian_high && !(isna donchian_high) then
          [{ symbol := symbol, signal_type := SignalType.BUY, timestamp := date,
             price := current, system := sys, confidence := 1,
             stop_price := nanSubMul current cfg.stop_atr_multiple
               (rowGetD latest ("atr_" ++ toString cfg.atr_period)),
             target_price := none, units := 1 }]
          else [])) ∧
        (∀ sg ∈ exits, sg.signal_type = SignalType.EXIT ∧ sg.system = sys) := by
  unfold check_system_signals at hok
  by_cases hcol : ("donchian_high_" ++ toString length) ∈ df.cols
  case neg =>
    rw [if_neg hcol] at hok
    injection hok with h
    exact Or.inl ⟨hcol, h.symm⟩
  case pos =>
  rw [if_pos hcol] at hok
  cases hcur : rowGetE latest "close" with
  | error e => rw [hcur] at hok; exact Except.noConfusion hok
  | ok current =>
  rw [hcur] at hok
  cases hdh : rowGetE latest ("donchian_high_" ++ toString length) with
  | error e => rw [hdh] at hok; exact Except.noConfusion hok
  | ok donchian_high =>
  rw [hdh] at hok
  cases hdl : rowGetE latest ("donchian_low_" ++ toString length) with
  | error e => rw [hdl] at hok; exact Except.noConfusion hok
  | ok _dlow =>
  rw [hdl] at hok
  simp only [] at hok
  refine Or.inr ⟨current, donchian_high, rowGetE_ok hcur, rowGetE_ok hdh, ?_⟩
  by_cases hec : ("donchian_low_" ++ toString exit_length) ∈ df.cols
  case neg =>
    rw [if_neg hec] at hok
    injection hok with h
    subst h
    exact ⟨_, [], by simp, rfl, by simp⟩
  case pos =>
  rw [if_pos hec] at hok
  cases hel : rowGetE latest ("donchian_low_" ++ toString exit_length) with
  | error e => rw [hel] at hok; exact Except.noConfusion hok
  | ok exit_low =>
  rw [hel] at hok
  simp only [] at hok
  by_cases hcond : (nanLt current exit_low && !(isna exit_low)) = true
  · rw [if_pos hcond] at hok
    injection hok with h
    subst h
    exact ⟨_, _, rfl, rfl, by simp⟩
  · rw [if_neg hcond] at hok
    injection hok with h
    subst h
    exact ⟨_, [], by simp, rfl, by simp⟩

/-- Corollary: every signal a system check emits carries that system's
tag. -/
theorem css_ok_system (cfg : TradingConfig) (symbol : String) (df : Df)
    (latest : Row) (date sys length exit_length : ℕ) (sigs : List Signal)
    (hok : check_system_signals cfg symbol df latest date sys length exit_length
      = Except.ok sigs) :
    ∀ sg ∈ sigs, sg.system = sys := by
  rcases css_ok_cases cfg symbol df latest date sys length exit_length sigs hok with
    ⟨_, rfl⟩ | ⟨cur, dh, _, _, entry, exits, rfl, hentry, hexits⟩
  · simp
  · intro sg hsg
    rcases List.mem_append.mp hsg with hsg | hsg
    · subst hentry
      revert hsg
      split
      · intro hsg
        rw [List.mem_singleton] at hsg
        subst hsg
        rfl
      · intro hsg
        simp at hsg
    · exact (hexits sg hsg).2

theorem nanGt_some {a b : Option ℚ} (h : nanGt a b = true) :
    ∃ x y, a = some x ∧ b = some y ∧ y < x := by
  unfold nanGt at h
  cases a with
  | none => simp at h
  | some x =>
    cases b with
    | none => simp at h
    | some y => exact ⟨x, y, rfl, rfl, of_decide_eq_true h⟩

/-- Decomposition of a successful `generate_symbol_signals` run. -/
theorem gss_ok_cases (cfg : TradingConfig) (symbol : String) (df : Df)
    (sigs : List Signal)
    (hok : generate_symbol_signals cfg symbol df = Except.ok sigs) :
    (df.rows.length < max cfg.system1_length cfg.system2_length ∧ sigs = []) ∨
    (¬ df.rows.length < max cfg.system1_length cfg.system2_length ∧
      ∃ latest, df.rows.getLast? = some latest ∧
      ∃ s1 s2 : List Signal,
        check_system1_signals cfg symbol df latest (df.rows.length - 1)
          = Except.ok s1 ∧
        sigs = s1 ++ s2 ∧
        ((cfg.use_system2 = true ∧
            check_system2_signals cfg symbol df latest (df.rows.length - 1)
              = Except.ok s2)
          ∨ (cfg.use_system2 = false ∧ s2 = []))) := by
  unfold generate_symbol_signals at hok
  by_cases hlen : df.rows.length < max cfg.system1_length cfg.system2_length
  · rw [if_pos hlen] at hok
    injection hok with h
    exact Or.inl ⟨hlen, h.symm⟩
  · rw [if_neg hlen] at hok
    refine Or.inr ⟨hlen, ?_⟩
    cases hlast : df.rows.getLast? with
    | none => rw [hlast] at hok; exact Except.noConfusion hok
    | some latest =>
      rw [hlast] at hok
      simp only [] at hok
      cases hs1 : check_system1_signals cfg symbol df latest (df.rows.length - 1) with
      | error e => rw [hs1] at hok; exact Except.noConfusion hok
      | ok s1 =>
        rw [hs1] at hok
        simp only [] at hok
        by_cases hu2 : cfg.use_system2 = true
        · rw [if_pos hu2] at hok
          cases hs2 : check_system2_signals cfg symbol df latest (df.rows.length - 1) with
          | error e => rw [hs2] at hok; exact Except.noConfusion hok
          | ok s2 =>
            rw [hs2] at hok
            injection hok with h
            exact ⟨latest, rfl, s1, s2, hs1, h.symm, Or.inl ⟨hu2, hs2⟩⟩
        · rw [if_neg hu2] at hok
          injection hok with h
          exact ⟨latest, rfl, s1, [], hs1, by rw [← h, List.append_nil],
            Or.inr ⟨Bool.not_eq_true _ ▸ hu2, rfl⟩⟩

/-! ### Claim C5 — strict breakout entry for System 1 -/

/-- Claim C5: on a frame meeting the history precondition, whose
latest row has a defined close `c` and a defined
`donchian_high_{system1_length}` value `h`, a successful
`generate_signals` run for the symbol emits exactly one `BUY` signal
with `system = 1`, priced at the latest close, when `c > h`; and none
at all when `c = h` (the comparison is strict). -/
theorem entry_signal_strict (cfg : TradingConfig) (symbol : String) (df : Df)
    (r : Row) (c h : ℚ) (sigs : List Signal)
    (hlen : max cfg.system1_length cfg.system2_length ≤ df.rows.length)
    (hlast : df.rows.getLast? = some r)
    (hcol : ("donchian_high_" ++ toString cfg.system1_length) ∈ df.cols)
    (hclose : List.lookup "close" r = some (some c))
    (hhigh : List.lookup ("donchian_high_" ++ toString cfg.system1_length) r
      = some (some h))
    (hok : generate_symbol_signals cfg symbol df = Except.ok sigs) :
    (h < c →
      (sigs.filter (fun sg =>
          sg.signal_type == SignalType.BUY && sg.system == 1)).length = 1
        ∧ ∀ sg ∈ sigs, sg.signal_type = SignalType.BUY → sg.system = 1 →
            sg.price = some c)
      ∧ (c = h →
        (sigs.filter (fun sg =>
            sg.signal_type == SignalType.BUY && sg.system == 1)).length = 0) := by
  rcases gss_ok_cases cfg symbol df sigs hok with ⟨hlt, _⟩ | ⟨_, latest, hl, s1, s2, hs1, rfl, hsys2⟩
  · omega
  · rw [hlast] at hl
    injection hl with hl
    subst hl
    -- the System 2 half contributes no `system = 1` signals
    have hsys2mem : ∀ sg ∈ s2, sg.system = 2 ∨ s2 = [] := by
      rcases hsys2 with ⟨_, hok2⟩ | ⟨_, rfl⟩
      · intro sg hsg
        exact Or.inl (css_ok_system cfg symbol df r _ 2 _ _ s2 hok2 sg hsg)
      · intro sg hsg
        exact Or.inr rfl
    have hs2filter : s2.filter (fun sg =>
        sg.signal_type == SignalType.BUY && sg.system == 1) = [] := by
      rw [List.filter_eq_nil_iff]
      intro sg hsg
      rcases hsys2mem sg hsg with h2 | h2
      · simp [h2]
      · rw [h2] at hsg
        simp at hsg
    -- analyse the System 1 half
    rcases css_ok_cases cfg symbol df r _ 1 _ _ s1 hs1 with
      ⟨hno, _⟩ | ⟨cur, dh, hcur, hdh, entry, exits, rfl, hentry, hexits⟩
    · exact absurd hcol hno
    · rw [hclose] at hcur
      injection hcur with hcur
      subst hcur
      rw [hhigh] at hdh
      injection hdh with hdh
      subst hdh
      have hexitsfilter : exits.filter (fun sg =>
          sg.signal_type == SignalType.BUY && sg.system == 1) = [] := by
        rw [List.filter_eq_nil_iff]
        intro sg hsg
        have := (hexits sg hsg).1
        simp [this]
      constructor
      · intro hlt
        have hcond : (nanGt (some c) (some h) && !(isna (some h))) = true := by
          simp [nanGt, isna, hlt]
        rw [if_pos hcond] at hentry
        subst hentry
        constructor
        · simp only [List.filter_append, hs2filter, hexitsfilter,
            List.append_nil]
          simp
        · intro sg hsg hbuy hsysone
          rcases List.mem_append.mp hsg with hsg | hsg
          · rcases List.mem_append.mp hsg with hsg | hsg
            · rw [List.mem_singleton] at hsg
              subst hsg
              rfl
            · exact absurd hbuy (by simp [(hexits sg hsg).1])
          · rcases hsys2mem sg hsg with h2 | h2
            · rw [h2] at hsysone
              exact absurd hsysone (by norm_num)
            · rw [h2] at hsg
              simp at hsg
      · intro hceq
        have hcond : ¬ ((nanGt (some c) (some h) && !(isna (some h))) = true) := by
          simp [nanGt, isna, hceq]
        rw [if_neg hcond] at hentry
        subst hentry
        simp only [List.nil_append, List.filter_append, hs2filter,
          hexitsfilter, List.append_nil]
        simp [hexitsfilter]

/-- Witness configuration for the Signal Engine claims: two-bar
history, System 1 window 2, System 2 disabled, no exit channel
column. -/
def engCfg : TradingConfig :=
  { system1_length := 2, system2_length := 2, use_system2 := false,
    exit_length_s1 := 3 }

/-- Latest row of the C5 witness frame: close 100 strictly above the
channel high 50. -/
def c5row : Row :=
  [("close", some 100), ("donchian_high_2", some 50), ("donchian_low_2", some 40)]

/-- The C5 witness frame. -/
def c5df : Df :=
  { cols := ["close", "donchian_high_2", "donchian_low_2"], rows := [[], c5row] }

/-- The signal the engine computes on `c5df`. -/
def c5sig : Signal :=
  { symbol := "W", signal_type := SignalType.BUY, timestamp := 1,
    price := some 100, system := 1, confidence := 1,
    stop_price := some (100 - 2 * 0), target_price := none, units := 1 }

/-- Witness for `entry_signal_strict` on the concrete frame `c5df`
(close 100 > channel high 50): the filtered System 1 `BUY` count is 1. -/
theorem entry_signal_strict_witness :
    (([c5sig] : List Signal).filter (fun sg =>
        sg.signal_type == SignalType.BUY && sg.system == 1)).length = 1 :=
  ((entry_signal_strict engCfg "W" c5df c5row 100 50 [c5sig]
      (by decide) rfl (by decide) (by decide) (by decide) rfl).1
    (by norm_num)).1

/-! ### Claim C6 — entry stop price versus entry price

The spec asserts `stop_price < price` for every entry signal.  The
source computes `stop_price = price - stop_atr_multiple * atr` with the
ATR read through `.get(..., 0)`: when the ATR column is absent (or its
value is zero) the stop equals the price, and when the stored ATR is
`NaN` the stop is `NaN`; the strict inequality fails. -/

/-- The claim's comparison, with Python float semantics: `False` when
either side is `NaN`. -/
def stopBelowPriceB (sg : Signal) : Bool :=
  match sg.stop_price, sg.price with
  | some q, some p => decide (q < p)
  | _, _ => false

/-- Latest row of the C6 counterexample frame: a breakout row with no
ATR column at all. -/
def c6row : Row :=
  [("close", some 100), ("donchian_high_2", some 50), ("donchian_low_2", some 40)]

/-- The C6 counterexample frame. -/
def c6df : Df :=
  { cols := ["close", "donchian_high_2", "donchian_low_2"], rows := [[], c6row] }

/-- The entry signal the engine emits on `c6df`: its stop price is
`100 - 2 * 0 = 100`, equal to its price. -/
def c6sig : Signal :=
  { symbol := "X", signal_type := SignalType.BUY, timestamp := 1,
    price := some 100, system := 1, confidence := 1,
    stop_price := some (100 - 2 * 0), target_price := none, units := 1 }

/-- Claim C6 counterexample: a generated entry (`BUY`) signal whose
stop price is not strictly below its price — the ATR column is absent,
`.get(..., 0)` defaults it to `0`, and the stop equals the price. -/
theorem entry_stop_not_below_cex :
    generate_symbol_signals engCfg "X" c6df = Except.ok [c6sig]
      ∧ c6sig.signal_type = SignalType.BUY
      ∧ stopBelowPriceB c6sig = false := by
  refine ⟨rfl, rfl, ?_⟩
  simp [stopBelowPriceB, c6sig]

/-- Claim C6 (amended): an entry signal's stop price is strictly below
its price whenever the ATR value used for the latest row is a defined
positive number and `stop_atr_multiple` is positive; when the ATR used
is zero — in particular when the ATR column is absent and `.get(..., 0)`
silently defaults it — the stop price equals the price, and when the
stored ATR is `NaN` the stop is `NaN` (no comparison holds). -/
theorem entry_stop_below_when_atr_pos (cfg : TradingConfig) (symbol : String)
    (df : Df) (r : Row) (a : ℚ) (sigs : List Signal)
    (hlast : df.rows.getLast? = some r)
    (hok : generate_symbol_signals cfg symbol df = Except.ok sigs)
    (hm : 0 < cfg.stop_atr_multiple)
    (ha : rowGetD r ("atr_" ++ toString cfg.atr_period) = some a)
    (hpos : 0 < a) :
    ∀ sg ∈ sigs, sg.signal_type = SignalType.BUY → stopBelowPriceB sg = true := by
  rcases gss_ok_cases cfg symbol df sigs hok with ⟨_, rfl⟩ | ⟨_, latest, hl, s1, s2, hs1, rfl, hsys2⟩
  · simp
  · rw [hlast] at hl
    injection hl with hl
    subst hl
    have hbuyshape : ∀ (sys length exit_length : ℕ) (part : List Signal),
        check_system_signals cfg symbol df r (df.rows.length - 1) sys length
          exit_length = Except.ok part →
        ∀ sg ∈ part, sg.signal_type = SignalType.BUY → stopBelowPriceB sg = true := by
      intro sys length exit_length part hokp sg hsg hbuy
      rcases css_ok_cases cfg symbol df r _ sys length exit_length part hokp with
        ⟨_, rfl⟩ | ⟨cur, dh, hcur, hdh, entry, exits, rfl, hentry, hexits⟩
      · simp at hsg
      · rcases List.mem_append.mp hsg with hsg | hsg
        · subst hentry
          revert hsg
          split
          case isTrue hcond =>
            intro hsg
            rw [List.mem_singleton] at hsg
            subst hsg
            obtain ⟨x, y, hx, _, _⟩ :=
              nanGt_some ((Bool.and_eq_true _ _).mp hcond).1
            subst hx
            simp only [stopBelowPriceB, nanSubMul, ha]
            have : x - cfg.stop_atr_multiple * a < x :=
              sub_lt_self x (mul_pos hm hpos)
            simp [this]
          case isFalse =>
            intro hsg
            simp at hsg
        · exact absurd hbuy (by simp [(hexits sg hsg).1])
    intro sg hsg hbuy
    rcases List.mem_append.mp hsg with hsg | hsg
    · exact hbuyshape 1 cfg.system1_length cfg.exit_length_s1 s1 hs1 sg hsg hbuy
    · rcases hsys2 with ⟨_, hok2⟩ | ⟨_, rfl⟩
      · exact hbuyshape 2 cfg.system2_length cfg.exit_length_s2 s2 hok2 sg hsg hbuy
      · simp at hsg

/-- Latest row of the C6 witness frame: as `c6row` but with a defined
positive ATR of 3. -/
def c6wrow : Row :=
  [("close", some 100), ("donchian_high_2", some 50), ("donchian_low_2", some 40),
   ("atr_20", some 3)]

/-- The C6 witness frame. -/
def c6wdf : Df :=
  { cols := ["close", "donchian_high_2", "donchian_low_2", "atr_20"],
    rows := [[], c6wrow] }

/-- The entry signal the engine emits on `c6wdf`. -/
def c6wsig : Signal :=
  { symbol := "X", signal_type := SignalType.BUY, timestamp := 1,
    price := some 100, system := 1, confidence := 1,
    stop_price := some (100 - 2 * 3), target_price := none, units := 1 }

/-- Witness for `entry_stop_below_when_atr_pos` at the concrete frame
`c6wdf`, where the ATR used is the defined positive value 3. -/
theorem entry_stop_below_when_atr_pos_witness :
    stopBelowPriceB c6wsig = true :=
  entry_stop_below_when_atr_pos engCfg "X" c6wdf c6wrow 3 [c6wsig]
    rfl rfl (by norm_num [engCfg]) (by decide) (by norm_num)
    c6wsig (by simp) rfl

/-! ### Dictionary lemmas for the engine state -/

theorem lookup_map_overwrite_self {α : Type} (k : String) (v : α) :
    ∀ m : List (String × α),
      List.lookup k (m.map (fun p => if p.1 == k then (k, v) else p))
        = if m.any (fun p => p.1 == k) then some v else none := by
  intro m
  induction m with
  | nil => rfl
  | cons p t ih =>
    obtain ⟨pk, pv⟩ := p
    simp only [List.map_cons, List.any_cons]
    by_cases hp : (pk == k) = true
    · rw [if_pos hp]
      simp [List.lookup, hp]
    · have hp' : (pk == k) = false := Bool.not_eq_true _ ▸ hp
      have hkp : (k == pk) = false := by
        rw [beq_eq_false_iff_ne] at hp' ⊢
        exact fun h => hp' h.symm
      rw [if_neg hp]
      simp only [List.lookup, hkp, hp', Bool.false_or]
      exact ih

theorem lookup_map_overwrite_ne {α : Type} (k a : String) (v : α)
    (hne : a ≠ k) :
    ∀ m : List (String × α),
      List.lookup a (m.map (fun p => if p.1 == k then (k, v) else p))
        = List.lookup a m := by
  have hak : (a == k) = false := beq_eq_false_iff_ne.mpr hne
  intro m
  induction m with
  | nil => rfl
  | cons p t ih =>
    obtain ⟨pk, pv⟩ := p
    simp only [List.map_cons]
    by_cases hp : (pk == k) = true
    · have hpk : pk = k := beq_iff_eq.mp hp
      subst hpk
      rw [if_pos hp]
      simp only [List.lookup, hak]
      exact ih
    · rw [if_neg hp]
      simp only [List.lookup]
      cases hap : a == pk
      · exact ih
      · rfl

theorem lookup_none_of_not_any {α : Type} (k : String) :
    ∀ m : List (String × α),
      ¬ (m.any (fun p => p.1 == k) = true) → List.lookup k m = none := by
  intro m
  induction m with
  | nil => intro _; rfl
  | cons p t ih =>
    obtain ⟨pk, pv⟩ := p
    intro hmem
    simp only [List.any_cons, Bool.or_eq_true, not_or] at hmem
    have hkp : (k == pk) = false := by
      rw [beq_eq_false_iff_ne]
      intro h
      exact hmem.1 (by rw [beq_iff_eq]; exact h.symm)
    simp only [List.lookup, hkp]
    exact ih (by simpa using hmem.2)

theorem lookup_append_last {α : Type} (k : String) (v : α) :
    ∀ m : List (String × α),
      List.lookup k m = none → List.lookup k (m ++ [(k, v)]) = some v := by
  intro m
  induction m with
  | nil =>
    intro _
    simp [List.lookup]
  | cons p t ih =>
    obtain ⟨pk, pv⟩ := p
    intro hnone
    simp only [List.lookup] at hnone ⊢
    cases hkp : k == pk
    · rw [hkp] at hnone
      simp only [List.cons_append, List.lookup, hkp]
      exact ih hnone
    · rw [hkp] at hnone
      exact Option.noConfusion hnone

theorem lookup_append_single_ne {α : Type} (k a : String) (v : α)
    (hne : a ≠ k) :
    ∀ m : List (String × α),
      List.lookup a (m ++ [(k, v)]) = List.lookup a m := by
  have hak : (a == k) = false := beq_eq_false_iff_ne.mpr hne
  intro m
  induction m with
  | nil => simp [List.lookup, hak]
  | cons p t ih =>
    obtain ⟨pk, pv⟩ := p
    simp only [List.cons_append, List.lookup]
    cases hap : a == pk
    · exact ih
    · rfl

theorem setKey_lookup_self {α : Type} (m : List (String × α)) (k : String)
    (v : α) : List.lookup k (setKey m k v) = some v := by
  unfold setKey
  by_cases hmem : m.any (fun p => p.1 == k) = true
  · rw [if_pos hmem, lookup_map_overwrite_self, if_pos hmem]
  · rw [if_neg hmem]
    exact lookup_append_last k v m (lookup_none_of_not_any k m hmem)

theorem setKey_lookup_ne {α : Type} (m : List (String × α)) (k a : String)
    (v : α) (hne : a ≠ k) :
    List.lookup a (setKey m k v) = List.lookup a m := by
  unfold setKey
  by_cases hmem : m.any (fun p => p.1 == k) = true
  · rw [if_pos hmem]
    exact lookup_map_overwrite_ne k a v hne m
  · rw [if_neg hmem]
    exact lookup_append_single_ne k a v hne m

/-- Processing a batch never touches state entries of symbols outside
the batch. -/
theorem gsa_lookup_notmem (cfg : TradingConfig) (sym : String) :
    ∀ (data : List (String × Df)) (st : EngineState)
      (all : List (String × List Signal)),
      sym ∉ data.map Prod.fst →
      List.lookup sym (generate_signals_aux cfg st all data).1
        = List.lookup sym st := by
  intro data
  induction data with
  | nil => intro st all _; rfl
  | cons item rest ih =>
    intro st all hnot
    obtain ⟨symbol, df⟩ := item
    simp only [List.map_cons, List.mem_cons, not_or] at hnot
    unfold generate_signals_aux
    cases hgen : generate_symbol_signals cfg symbol df with
    | error e => exact ih st all (by simpa using hnot.2)
    | ok signals =>
      simp only []
      by_cases hnil : signals = []
      · rw [if_pos hnil]
        exact ih st all (by simpa using hnot.2)
      · rw [if_neg hnil]
        rw [ih _ _ (by simpa using hnot.2)]
        exact setKey_lookup_ne st symbol sym signals (by
          intro hx
          exact hnot.1 hx)

/-- A processed symbol whose computed signal list is non-empty ends
with exactly that list in the state. -/
theorem gsa_lookup_written (cfg : TradingConfig) :
    ∀ (data : List (String × Df)) (st : EngineState)
      (all : List (String × List Signal)) (sym : String) (df : Df)
      (signals : List Signal),
      (data.map Prod.fst).Nodup →
      (sym, df) ∈ data →
      generate_symbol_signals cfg sym df = Except.ok signals →
      signals ≠ [] →
      List.lookup sym (generate_signals_aux cfg st all data).1 = some signals := by
  intro data
  induction data with
  | nil =>
    intro st all sym df signals _ hmem
    simp at hmem
  | cons item rest ih =>
    intro st all sym df signals hnd hmem hgen hne
    obtain ⟨symbol0, df0⟩ := item
    simp only [List.map_cons, List.nodup_cons] at hnd
    rcases List.mem_cons.mp hmem with heq | hmemrest
    · injection heq with h1 h2
      subst h1
      subst h2
      unfold generate_signals_aux
      rw [hgen]
      simp only []
      rw [if_neg hne]
      rw [gsa_lookup_notmem cfg sym rest _ _ hnd.1]
      exact setKey_lookup_self st sym signals
    · have hne0 : symbol0 ≠ sym := by
        intro hx
        subst hx
        exact hnd.1 (List.mem_map.mpr ⟨(symbol0, df), hmemrest, rfl⟩)
      unfold generate_signals_aux
      cases hgen0 : generate_symbol_signals cfg symbol0 df0 with
      | error e => exact ih st all sym df signals hnd.2 hmemrest hgen hne
      | ok signals0 =>
        simp only []
        by_cases hnil0 : signals0 = []
        · rw [if_pos hnil0]
          exact ih st all sym df signals hnd.2 hmemrest hgen hne
        · rw [if_neg hnil0]
          exact ih _ _ sym df signals hnd.2 hmemrest hgen hne

/-- A processed symbol whose computed signal list is empty keeps its
previous state entry. -/
theorem gsa_lookup_empty (cfg : TradingConfig) :
    ∀ (data : List (String × Df)) (st : EngineState)
      (all : List (String × List Signal)) (sym : String) (df : Df),
      (data.map Prod.fst).Nodup →
      (sym, df) ∈ data →
      generate_symbol_signals cfg sym df = Except.ok [] →
      List.lookup sym (generate_signals_aux cfg st all data).1
        = List.lookup sym st := by
  intro data
  induction data with
  | nil =>
    intro st all sym df _ hmem
    simp at hmem
  | cons item rest ih =>
    intro st all sym df hnd hmem hgen
    obtain ⟨symbol0, df0⟩ := item
    simp only [List.map_cons, List.nodup_cons] at hnd
    rcases List.mem_cons.mp hmem with heq | hmemrest
    · injection heq with h1 h2
      subst h1
      subst h2
      unfold generate_signals_aux
      rw [hgen]
      simp only []
      rw [if_pos trivial]
      exact gsa_lookup_notmem cfg sym rest _ _ hnd.1
    · have hne0 : symbol0 ≠ sym := by
        intro hx
        subst hx
        exact hnd.1 (List.mem_map.mpr ⟨(symbol0, df), hmemrest, rfl⟩)
      unfold generate_signals_aux
      cases hgen0 : generate_symbol_signals cfg symbol0 df0 with
      | error e => exact ih st all sym df hnd.2 hmemrest hgen
      | ok signals0 =>
        simp only []
        by_cases hnil0 : signals0 = []
        · rw [if_pos hnil0]
          exact ih st all sym df hnd.2 hmemrest hgen
        · rw [if_neg hnil0]
          rw [ih _ _ sym df hnd.2 hmemrest hgen]
          exact setKey_lookup_ne st symbol0 sym signals0 (fun hx => hne0 hx.symm)

/-! ### Claim C8 — frame effect of `generate_signals` on the state -/

/-- Claim C8: after a `generate_signals` call over a batch with
distinct symbols — the Python argument is a dict, so symbols are
unique — (1) a processed instrument whose computed signal list is
non-empty has its state entry overwritten with exactly that list;
(2) a processed instrument whose computed list is empty keeps its
previous entry (an empty result never clears prior state); and
(3) instruments not in the batch keep their previous entries. -/
theorem generate_signals_frame (cfg : TradingConfig) (st : EngineState)
    (data : List (String × Df)) (sym : String)
    (hnd : (data.map Prod.fst).Nodup) :
    (∀ df signals, (sym, df) ∈ data →
        generate_symbol_signals cfg sym df = Except.ok signals →
        signals ≠ [] →
        List.lookup sym (generate_signals cfg st data).1 = some signals)
      ∧ (∀ df, (sym, df) ∈ data →
          generate_symbol_signals cfg sym df = Except.ok [] →
          List.lookup sym (generate_signals cfg st data).1 = List.lookup sym st)
      ∧ (sym ∉ data.map Prod.fst →
          List.lookup sym (generate_signals cfg st data).1 = List.lookup sym st) :=
  ⟨fun df signals hmem hgen hne =>
      gsa_lookup_written cfg data st [] sym df signals hnd hmem hgen hne,
    fun df hmem hgen => gsa_lookup_empty cfg data st [] sym df hnd hmem hgen,
    fun hnot => gsa_lookup_notmem cfg sym data st [] hnot⟩

/-- Witness for `generate_signals_frame` at a concrete batch: the
symbol "X" is processed on the breakout frame `c6df`, produces the
non-empty list `[c6sig]`, and the state entry for "X" afterwards is
exactly that list. -/
theorem generate_signals_frame_witness :
    List.lookup "X" (generate_signals engCfg [("Y", [c6sig])] [("X", c6df)]).1
      = some [c6sig] :=
  (generate_signals_frame engCfg [("Y", [c6sig])] [("X", c6df)] "X"
      (by simp)).1 c6df [c6sig] (by simp) rfl (by simp)

/-! ### Key-set and value lemmas for the engine state -/

theorem keys_map_overwrite {α : Type} (k : String) (v : α) :
    ∀ m : List (String × α),
      (m.map (fun p => if p.1 == k then (k, v) else p)).map Prod.fst
        = m.map Prod.fst := by
  intro m
  induction m with
  | nil => rfl
  | cons p t ih =>
    obtain ⟨pk, pv⟩ := p
    simp only [List.map_cons]
    by_cases hp : (pk == k) = true
    · have hpk : pk = k := beq_iff_eq.mp hp
      subst hpk
      rw [if_pos hp]
      simp only [ih]
    · rw [if_neg hp]
      simp only [ih]

theorem any_key_iff_mem_keys {α : Type} (k : String) (m : List (String × α)) :
    m.any (fun p => p.1 == k) = true ↔ k ∈ m.map Prod.fst := by
  simp only [List.any_eq_true, List.mem_map, beq_iff_eq]

theorem setKey_mem_keys {α : Type} (m : List (String × α)) (k a : String)
    (v : α) :
    a ∈ (setKey m k v).map Prod.fst ↔ a ∈ m.map Prod.fst ∨ a = k := by
  unfold setKey
  by_cases hmem : m.any (fun p => p.1 == k) = true
  · rw [if_pos hmem, keys_map_overwrite]
    constructor
    · exact Or.inl
    · rintro (h | rfl)
      · exact h
      · exact (any_key_iff_mem_keys a m).mp hmem
  · rw [if_neg hmem]
    simp

theorem setKey_keys_nodup {α : Type} (m : List (String × α)) (k : String)
    (v : α) (hnd : (m.map Prod.fst).Nodup) :
    ((setKey m k v).map Prod.fst).Nodup := by
  unfold setKey
  by_cases hmem : m.any (fun p => p.1 == k) = true
  · rw [if_pos hmem, keys_map_overwrite]
    exact hnd
  · rw [if_neg hmem]
    have hk : k ∉ m.map Prod.fst := fun hx =>
      hmem ((any_key_iff_mem_keys k m).mpr hx)
    simp only [List.map_append, List.map_cons, List.map_nil]
    rw [List.nodup_append]
    exact ⟨hnd, List.nodup_singleton k, by
      intro a ha hb
      simp only [List.mem_singleton] at hb
      subst hb
      exact hk ha⟩

theorem setKey_values {α : Type} (P : α → Prop) (m : List (String × α))
    (k : String) (v : α) (hm : ∀ p ∈ m, P p.2) (hv : P v) :
    ∀ p ∈ setKey m k v, P p.2 := by
  unfold setKey
  by_cases hmem : m.any (fun p => p.1 == k) = true
  · rw [if_pos hmem]
    intro p hp
    obtain ⟨q, hq, hfq⟩ := List.mem_map.mp hp
    by_cases hqk : (q.1 == k) = true
    · rw [if_pos hqk] at hfq
      subst hfq
      exact hv
    · rw [if_neg hqk] at hfq
      subst hfq
      exact hm q hq
  · rw [if_neg hmem]
    intro p hp
    rcases List.mem_append.mp hp with hp | hp
    · exact hm p hp
    · rw [List.mem_singleton] at hp
      subst hp
      exact hv

/-! ### Batch-level invariants -/

theorem gsa_values (cfg : TradingConfig) :
    ∀ (data : List (String × Df)) (st : EngineState)
      (all : List (String × List Signal)),
      (∀ p ∈ st, p.2 ≠ []) →
      ∀ p ∈ (generate_signals_aux cfg st all data).1, p.2 ≠ [] := by
  intro data
  induction data with
  | nil => intro st all hst; exact hst
  | cons item rest ih =>
    intro st all hst
    obtain ⟨symbol, df⟩ := item
    unfold generate_signals_aux
    cases hgen : generate_symbol_signals cfg symbol df with
    | error e => exact ih st all hst
    | ok signals =>
      simp only []
      by_cases hnil : signals = []
      · rw [if_pos hnil]
        exact ih st all hst
      · rw [if_neg hnil]
        exact ih _ _ (setKey_values (fun l => l ≠ []) st symbol signals hst hnil)

theorem gsa_keys_nodup (cfg : TradingConfig) :
    ∀ (data : List (String × Df)) (st : EngineState)
      (all : List (String × List Signal)),
      (st.map Prod.fst).Nodup →
      (((generate_signals_aux cfg st all data).1).map Prod.fst).Nodup := by
  intro data
  induction data with
  | nil => intro st all hst; exact hst
  | cons item rest ih =>
    intro st all hst
    obtain ⟨symbol, df⟩ := item
    unfold generate_signals_aux
    cases hgen : generate_symbol_signals cfg symbol df with
    | error e => exact ih st all hst
    | ok signals =>
      simp only []
      by_cases hnil : signals = []
      · rw [if_pos hnil]
        exact ih st all hst
      · rw [if_neg hnil]
        exact ih _ _ (setKey_keys_nodup st symbol signals hst)

theorem gsa_mem_keys (cfg : TradingConfig) (sym : String) :
    ∀ (data : List (String × Df)) (st : EngineState)
      (all : List (String × List Signal)),
      (sym ∈ ((generate_signals_aux cfg st all data).1).map Prod.fst ↔
        sym ∈ st.map Prod.fst ∨
          ∃ df, (sym, df) ∈ data ∧
            ∃ signals, generate_symbol_signals cfg sym df = Except.ok signals
              ∧ signals ≠ []) := by
  intro data
  induction data with
  | nil =>
    intro st all
    simp [generate_signals_aux]
  | cons item rest ih =>
    intro st all
    obtain ⟨symbol, df0⟩ := item
    unfold generate_signals_aux
    cases hgen : generate_symbol_signals cfg symbol df0 with
    | error e =>
      rw [ih st all]
      constructor
      · rintro (h | ⟨df, hdf, hq⟩)
        · exact Or.inl h
        · exact Or.inr ⟨df, List.mem_cons_of_mem _ hdf, hq⟩
      · rintro (h | ⟨df, hdf, signals, hq, hne⟩)
        · exact Or.inl h
        · rcases List.mem_cons.mp hdf with heq | hdf
          · injection heq with h1 h2
            subst h1
            subst h2
            rw [hgen] at hq
            exact Except.noConfusion hq
          · exact Or.inr ⟨df, hdf, signals, hq, hne⟩
    | ok signals0 =>
      simp only []
      by_cases hnil : signals0 = []
      · rw [if_pos hnil]
        subst hnil
        rw [ih st all]
        constructor
        · rintro (h | ⟨df, hdf, hq⟩)
          · exact Or.inl h
          · exact Or.inr ⟨df, List.mem_cons_of_mem _ hdf, hq⟩
        · rintro (h | ⟨df, hdf, signals, hq, hne⟩)
          · exact Or.inl h
          · rcases List.mem_cons.mp hdf with heq | hdf
            · injection heq with h1 h2
              subst h1
              subst h2
              rw [hgen] at hq
              injection hq with hq
              exact absurd hq.symm hne
            · exact Or.inr ⟨df, hdf, signals, hq, hne⟩
      · rw [if_neg hnil]
        rw [ih _ _]
        rw [setKey_mem_keys]
        constructor
        · rintro ((h | rfl) | ⟨df, hdf, hq⟩)
          · exact Or.inl h
          · exact Or.inr ⟨df0, List.mem_cons_self _ _, signals0, hgen, hnil⟩
          · exact Or.inr ⟨df, List.mem_cons_of_mem _ hdf, hq⟩
        · rintro (h | ⟨df, hdf, signals, hq, hne⟩)
          · exact Or.inl (Or.inl h)
          · rcases List.mem_cons.mp hdf with heq | hdf
            · injection heq with h1 h2
              subst h1
              subst h2
              exact Or.inl (Or.inr rfl)
            · exact Or.inr ⟨df, hdf, signals, hq, hne⟩

/-! ### Claim C10 — the `last_signals` invariant and the summary count -/

/-- Claim C10: starting from the freshly constructed engine, after any
sequence of `generate_signals` calls (the only operation that mutates
`last_signals`): every stored signal list is non-empty; the stored
symbols are pairwise distinct; and `total_symbols` of
`get_signal_summary` — `len(last_signals)` — counts exactly those
instruments for which some processed batch entry produced at least one
signal. -/
theorem last_signals_invariant (cfg : TradingConfig)
    (batches : List (List (String × Df))) :
    (∀ p ∈ run_batches cfg batches, p.2 ≠ [])
      ∧ ((run_batches cfg batches).map Prod.fst).Nodup
      ∧ total_symbols (run_batches cfg batches)
          = ((run_batches cfg batches).map Prod.fst).length
      ∧ (∀ sym, sym ∈ (run_batches cfg batches).map Prod.fst ↔
          ∃ b ∈ batches, ∃ df, (sym, df) ∈ b ∧
            ∃ signals, generate_symbol_signals cfg sym df = Except.ok signals
              ∧ signals ≠ []) := by
  have main : ∀ (bs : List (List (String × Df))) (st : EngineState),
      (∀ p ∈ st, p.2 ≠ []) → (st.map Prod.fst).Nodup →
      (∀ p ∈ bs.foldl (fun st b => (generate_signals cfg st b).1) st, p.2 ≠ [])
        ∧ ((bs.foldl (fun st b => (generate_signals cfg st b).1) st).map
            Prod.fst).Nodup
        ∧ (∀ sym,
            sym ∈ (bs.foldl (fun st b => (generate_signals cfg st b).1) st).map
              Prod.fst ↔
            sym ∈ st.map Prod.fst ∨
              ∃ b ∈ bs, ∃ df, (sym, df) ∈ b ∧
                ∃ signals,
                  generate_symbol_signals cfg sym df = Except.ok signals
                    ∧ signals ≠ []) := by
    intro bs
    induction bs with
    | nil =>
      intro st hval hnd
      refine ⟨hval, hnd, fun sym => ?_⟩
      simp
    | cons b rest ih =>
      intro st hval hnd
      simp only [List.foldl_cons]
      obtain ⟨hval1, hnd1, hmem1⟩ := ih (generate_signals cfg st b).1
        (gsa_values cfg b st [] hval) (gsa_keys_nodup cfg b st [] hnd)
      refine ⟨hval1, hnd1, fun sym => ?_⟩
      rw [hmem1 sym]
      unfold generate_signals
      rw [gsa_mem_keys cfg sym b st []]
      constructor
      · rintro ((h | ⟨df, hdf, hq⟩) | ⟨b1, hb1, hq⟩)
        · exact Or.inl h
        · exact Or.inr ⟨b, List.mem_cons_self _ _, df, hdf, hq⟩
        · exact Or.inr ⟨b1, List.mem_cons_of_mem _ hb1, hq⟩
      · rintro (h | ⟨b1, hb1, hq⟩)
        · exact Or.inl (Or.inl h)
        · rcases List.mem_cons.mp hb1 with rfl | hb1
          · exact Or.inl (Or.inr hq)
          · exact Or.inr ⟨b1, hb1, hq⟩
  obtain ⟨h1, h2, h3⟩ := main batches [] (by simp) (by simp)
  exact ⟨h1, h2, (List.length_map _ _).symm, fun sym => (h3 sym).trans (by simp)⟩

/-! ### Claim C7 — causality of the indicator computation

Every column of row `i` reads the input only through the trailing
window `[i-w+1, i]`, the shifted previous close `i-1`, or the bar `i`
itself, so row `i` is unchanged when bars after index `i` are altered
or removed. -/

theorem rollingApply_congr (agg : List ℚ → Option ℚ) (f g : ℕ → Option ℚ)
    {n m : ℕ} (w i : ℕ) (hn : i < n) (hm : i < m)
    (hfg : ∀ j ≤ i, f j = g j) :
    rollingApply agg f n w i = rollingApply agg g m w i := by
  simp only [rollingApply, if_pos hn, if_pos hm]
  have : (windowIdx w i).filterMap f = (windowIdx w i).filterMap g :=
    List.filterMap_congr (fun j hj => hfg j (mem_windowIdx_le hj))
  rw [this]

/-- Claim C7: the indicator computation is strictly causal — row `i`
is identical on any two price series that agree on bars `0 .. i`,
whatever the later bars are (altered, extended, or removed). -/
theorem indicator_causality (s t : List Bar) (i : ℕ)
    (hs : i < s.length) (ht : i < t.length)
    (htake : s.take (i + 1) = t.take (i + 1)) :
    indicatorRowAt s i = indicatorRowAt t i := by
  have hget : ∀ j, j ≤ i → s.get? j = t.get? j := by
    intro j hj
    have hs1 : s.get? j = (s.take (i + 1)).get? j := (List.get?_take (by omega)).symm
    have ht1 : t.get? j = (t.take (i + 1)).get? j := (List.get?_take (by omega)).symm
    rw [hs1, ht1, htake]
  have hhigh : ∀ j, j ≤ i → highAt s j = highAt t j := by
    intro j hj
    simp only [highAt, hget j hj]
  have hlow : ∀ j, j ≤ i → lowAt s j = lowAt t j := by
    intro j hj
    simp only [lowAt, hget j hj]
  have hclosec : ∀ j, j ≤ i → closeAt s j = closeAt t j := by
    intro j hj
    simp only [closeAt, hget j hj]
  have htr : ∀ j, j ≤ i → trueRange s j = trueRange t j := by
    intro j hj
    unfold trueRange
    rw [hget j hj, hget (j - 1) (le_trans (Nat.sub_le j 1) hj)]
  have hpct : ∀ j, j ≤ i → pctChange s j = pctChange t j := by
    intro j hj
    unfold pctChange
    rw [hget j hj, hget (j - 1) (le_trans (Nat.sub_le j 1) hj)]
  have hroll : ∀ (agg : List ℚ → Option ℚ) (f g : ℕ → Option ℚ) (w : ℕ),
      (∀ j, j ≤ i → f j = g j) →
      rollingApply agg f s.length w i = rollingApply agg g t.length w i :=
    fun agg f g w hfg => rollingApply_congr agg f g w i hs ht hfg
  have hdh : ∀ w, donchianHigh s w i = donchianHigh t w i :=
    fun w => hroll listMax (highAt s) (highAt t) w hhigh
  have hdl : ∀ w, donchianLow s w i = donchianLow t w i :=
    fun w => hroll listMin (lowAt s) (lowAt t) w hlow
  have hatr : ∀ w, atr s w i = atr t w i :=
    fun w => hroll (fun vs => some (meanQ vs)) (trueRange s) (trueRange t) w htr
  have hsma : ∀ w, sma s w i = sma t w i :=
    fun w => hroll (fun vs => some (meanQ vs)) (closeAt s) (closeAt t) w hclosec
  have hvol : ∀ w, volatilitySq s w i = volatilitySq t w i := by
    intro w
    unfold volatilitySq rollingVar
    rw [hroll (fun vs => some (sampleVar vs)) (pctChange s) (pctChange t) w hpct]
  simp only [indicatorRowAt, hget i le_rfl, hdh 10, hdh 20, hdh 55,
    hdl 10, hdl 20, hdl 55, htr i le_rfl, hatr 10, hatr 20, hatr 30,
    hsma 10, hsma 20, hsma 50, hsma 200, hpct i le_rfl,
    hvol 10, hvol 20, hvol 30]

/-- Two witness series for causality: they share bar 0 and differ in
bar 1. -/
def c7s : List Bar :=
  [{ open_ := 1, high := 2, low := 1, close := 1, volume := 5 },
   { open_ := 1, high := 3, low := 1, close := 2, volume := 6 }]

/-- Second causality witness series: same bar 0, a different bar 1. -/
def c7t : List Bar :=
  [{ open_ := 1, high := 2, low := 1, close := 1, volume := 5 },
   { open_ := 9, high := 9, low := 9, close := 9, volume := 9 }]

/-- Witness for `indicator_causality`: row 0 is identical on the two
concrete series that agree on bar 0 and differ at bar 1. -/
theorem indicator_causality_witness :
    indicatorRowAt c7s 0 = indicatorRowAt c7t 0 :=
  indicator_causality c7s c7t 0 (by decide) (by decide) (by decide)

end Turtle
